import Mathlib

/-!
# UltraProtocol boot handoff format: verification development

Shallow embedding of `ultra_protocol.h` (the boot handoff format of
UltraOS/UltraProtocol): the C struct layouts, the type/size/magic
constants, and — modelled from the specification, since the repository
ships only the format header — the attribute-list builder and walker.
Buffers are lists of bytes (`Nat` values below 256); multi-byte fields
are little-endian.
-/

set_option maxRecDepth 100000

namespace Ultra

/-! ## Little-endian byte encoding of fixed-width integers -/

/-- `w`-byte little-endian encoding of `v` (truncating to `w` bytes). -/
def leBytes : Nat → Nat → List Nat
  | 0, _ => []
  | w + 1, v => v % 256 :: leBytes w (v / 256)

/-- Little-endian value of a byte list. -/
def leRead : List Nat → Nat
  | [] => 0
  | b :: bs => b % 256 + 256 * leRead bs

/-! ## C struct layout (natural alignment, as compiled for the target) -/

/-- Size and alignment of a C type. -/
structure CType where
  size : Nat
  align : Nat

def u8 : CType := ⟨1, 1⟩
def u16 : CType := ⟨2, 2⟩
def u32 : CType := ⟨4, 4⟩
def u64 : CType := ⟨8, 8⟩
def cchar : CType := ⟨1, 1⟩

/-- A C array `t[n]`. -/
def carr (t : CType) (n : Nat) : CType := ⟨t.size * n, t.align⟩

/-- Round `n` up to the next multiple of `a`. -/
def alignUp (n a : Nat) : Nat := ((n + a - 1) / a) * a

/-- End offset after laying out `fields` starting at offset `off`. -/
def layoutEnd (off : Nat) : List CType → Nat
  | [] => off
  | f :: fs => layoutEnd (alignUp off f.align + f.size) fs

/-- Byte offset of field `i` of a struct with members `fields`. -/
def fieldOffset (fields : List CType) (i : Nat) : Nat :=
  alignUp (layoutEnd 0 (fields.take i)) ((fields.drop i).headD u8).align

/-- Largest member alignment of a struct. -/
def structAlign (fields : List CType) : Nat :=
  fields.foldl (fun a f => max a f.align) 1

/-- `sizeof` a struct with members `fields`. -/
def structSize (fields : List CType) : Nat :=
  alignUp (layoutEnd 0 fields) (structAlign fields)

/-- A struct viewed as a C type of another struct's member list. -/
def cstruct (fields : List CType) : CType := ⟨structSize fields, structAlign fields⟩

/-! ## The struct member lists of `ultra_protocol.h` -/

/-- `struct ultra_attribute_header { uint32_t type; uint32_t size; }`. -/
def ultra_attribute_header : List CType := [u32, u32]

/-- `struct ultra_guid`. -/
def ultra_guid : List CType := [u32, u16, u16, carr u8 8]

/-- `struct ultra_platform_info_attribute` members, in declaration order:
header, platform_type, loader_major, loader_minor, loader_name[32],
acpi_rsdp_address, higher_half_base, page_table_depth, reserved[7],
dtb_address, smbios_address. -/
def ultra_platform_info_attribute : List CType :=
  [cstruct ultra_attribute_header, u32, u16, u16, carr cchar 32,
   u64, u64, u8, carr u8 7, u64, u64]

/-- `struct ultra_kernel_info_attribute` members: header, physical_base,
virtual_base, size, partition_type, disk_guid, partition_guid, disk_index,
partition_index, fs_path[256]. -/
def ultra_kernel_info_attribute : List CType :=
  [cstruct ultra_attribute_header, u64, u64, u64, u64,
   cstruct ultra_guid, cstruct ultra_guid, u32, u32, carr cchar 256]

/-- `struct ultra_memory_map_entry { uint64_t physical_address; uint64_t size; uint64_t type; }`. -/
def ultra_memory_map_entry : List CType := [u64, u64, u64]

/-- `struct ultra_module_info_attribute` members: header, reserved, type,
name[64], address, size. -/
def ultra_module_info_attribute : List CType :=
  [cstruct ultra_attribute_header, u32, u32, carr cchar 64, u64, u64]

/-- `struct ultra_framebuffer` members: width, height, pitch, bpp, format,
physical_address. -/
def ultra_framebuffer : List CType := [u32, u32, u32, u16, u16, u64]

/-- `struct ultra_framebuffer_attribute` members: header, fb. -/
def ultra_framebuffer_attribute : List CType :=
  [cstruct ultra_attribute_header, cstruct ultra_framebuffer]

/-- `struct ultra_apm_info` members: version, flags, pm_code_segment,
pm_code_segment_length, pm_offset, rm_code_segment, rm_code_segment_length,
data_segment, data_segment_length. -/
def ultra_apm_info : List CType :=
  [u16, u16, u16, u16, u32, u16, u16, u16, u16]

/-- `struct ultra_apm_attribute` members: header, info. -/
def ultra_apm_attribute : List CType :=
  [cstruct ultra_attribute_header, cstruct ultra_apm_info]

/-- `struct ultra_boot_context` named members (the trailing flexible array
`attributes[]` starts at the aligned end of these): protocol_major,
protocol_minor, reserved, attribute_count. -/
def ultra_boot_context : List CType := [u8, u8, u16, u32]

/-! ## Constants of `ultra_protocol.h` -/

def ULTRA_ATTRIBUTE_INVALID : Nat := 0
def ULTRA_ATTRIBUTE_PLATFORM_INFO : Nat := 1
def ULTRA_ATTRIBUTE_KERNEL_INFO : Nat := 2
def ULTRA_ATTRIBUTE_MEMORY_MAP : Nat := 3
def ULTRA_ATTRIBUTE_MODULE_INFO : Nat := 4
def ULTRA_ATTRIBUTE_COMMAND_LINE : Nat := 5
def ULTRA_ATTRIBUTE_FRAMEBUFFER_INFO : Nat := 6
def ULTRA_ATTRIBUTE_APM_INFO : Nat := 7

def ULTRA_PLATFORM_INVALID : Nat := 0
def ULTRA_PLATFORM_BIOS : Nat := 1
def ULTRA_PLATFORM_UEFI : Nat := 2

def ULTRA_PARTITION_TYPE_INVALID : Nat := 0
def ULTRA_PARTITION_TYPE_RAW : Nat := 1
def ULTRA_PARTITION_TYPE_MBR : Nat := 2
def ULTRA_PARTITION_TYPE_GPT : Nat := 3

def ULTRA_PATH_MAX : Nat := 256

def ULTRA_MEMORY_TYPE_INVALID : Nat := 0x00000000
def ULTRA_MEMORY_TYPE_FREE : Nat := 0x00000001
def ULTRA_MEMORY_TYPE_RESERVED : Nat := 0x00000002
def ULTRA_MEMORY_TYPE_RECLAIMABLE : Nat := 0x00000003
def ULTRA_MEMORY_TYPE_NVS : Nat := 0x00000004
def ULTRA_MEMORY_TYPE_LOADER_RECLAIMABLE : Nat := 0xFFFF0001
def ULTRA_MEMORY_TYPE_MODULE : Nat := 0xFFFF0002
def ULTRA_MEMORY_TYPE_KERNEL_STACK : Nat := 0xFFFF0003
def ULTRA_MEMORY_TYPE_KERNEL_BINARY : Nat := 0xFFFF0004

def ULTRA_MODULE_TYPE_INVALID : Nat := 0
def ULTRA_MODULE_TYPE_FILE : Nat := 1
def ULTRA_MODULE_TYPE_MEMORY : Nat := 2

def ULTRA_FB_FORMAT_INVALID : Nat := 0
def ULTRA_FB_FORMAT_RGB888 : Nat := 1
def ULTRA_FB_FORMAT_BGR888 : Nat := 2
def ULTRA_FB_FORMAT_RGBX8888 : Nat := 3
def ULTRA_FB_FORMAT_XRGB8888 : Nat := 4

/-- `ULTRA_MEMORY_MAP_ENTRY_COUNT(header)`:
`((header.size - sizeof(struct ultra_attribute_header)) / sizeof(struct ultra_memory_map_entry))`. -/
def ULTRA_MEMORY_MAP_ENTRY_COUNT (size : Nat) : Nat :=
  (size - structSize ultra_attribute_header) / structSize ultra_memory_map_entry

def ULTRA_MAGIC : Nat := 0x554c5442

/-! ## Typed records

The typed views of the attribute records, mirroring the attribute structs
of `ultra_protocol.h`. Strings are byte lists without their terminator;
`unknown` is the opaque view the walker yields for an unrecognized type. -/

structure Guid where
  data1 : Nat
  data2 : Nat
  data3 : Nat
  data4 : List Nat
  deriving DecidableEq, Repr

structure MemMapEntry where
  physical_address : Nat
  size : Nat
  type : Nat
  deriving DecidableEq, Repr

inductive URecord where
  | platformInfo (platform_type loader_major loader_minor : Nat)
      (loader_name : List Nat)
      (acpi_rsdp_address higher_half_base page_table_depth
       dtb_address smbios_address : Nat)
  | kernelInfo (physical_base virtual_base size partition_type : Nat)
      (disk_guid partition_guid : Guid) (disk_index partition_index : Nat)
      (fs_path : List Nat)
  | memoryMap (entries : List MemMapEntry)
  | moduleInfo (reserved type : Nat) (name : List Nat) (address size : Nat)
  | commandLine (text : List Nat)
  | framebufferInfo (width height pitch bpp format physical_address : Nat)
  | apmInfo (version flags pm_code_segment pm_code_segment_length pm_offset
      rm_code_segment rm_code_segment_length data_segment
      data_segment_length : Nat)
  | unknown (type : Nat) (payload : List Nat)
  deriving DecidableEq, Repr

/-- The `type` discriminant written in a record's attribute header. -/
def rtype : URecord → Nat
  | .platformInfo .. => ULTRA_ATTRIBUTE_PLATFORM_INFO
  | .kernelInfo .. => ULTRA_ATTRIBUTE_KERNEL_INFO
  | .memoryMap .. => ULTRA_ATTRIBUTE_MEMORY_MAP
  | .moduleInfo .. => ULTRA_ATTRIBUTE_MODULE_INFO
  | .commandLine .. => ULTRA_ATTRIBUTE_COMMAND_LINE
  | .framebufferInfo .. => ULTRA_ATTRIBUTE_FRAMEBUFFER_INFO
  | .apmInfo .. => ULTRA_ATTRIBUTE_APM_INFO
  | .unknown ty _ => ty

/-- Modelled from the spec: the `size` the builder writes in a record's
attribute header — the struct size for fixed-shape variants, header plus
entry array for the memory map, and the header plus NUL-terminated text
rounded up to 8-byte internal alignment for the command line. -/
def rsize : URecord → Nat
  | .platformInfo .. => structSize ultra_platform_info_attribute
  | .kernelInfo .. => structSize ultra_kernel_info_attribute
  | .memoryMap es =>
      structSize ultra_attribute_header + structSize ultra_memory_map_entry * es.length
  | .moduleInfo .. => structSize ultra_module_info_attribute
  | .commandLine text =>
      structSize ultra_attribute_header + alignUp (text.length + 1) 8
  | .framebufferInfo .. => structSize ultra_framebuffer_attribute
  | .apmInfo .. => structSize ultra_apm_attribute
  | .unknown _ payload => structSize ultra_attribute_header + payload.length

/-! ## Serialization (builder side, modelled from the spec) -/

/-- A fixed-capacity NUL-padded string field: the bytes followed by zero
padding up to `cap`. -/
def fixedString (cap : Nat) (s : List Nat) : List Nat :=
  s ++ List.replicate (cap - s.length) 0

/-- Wire bytes of a GUID: data1/data2/data3 little-endian, data4 raw. -/
def guidBytes (g : Guid) : List Nat :=
  leBytes 4 g.data1 ++ leBytes 2 g.data2 ++ leBytes 2 g.data3 ++ g.data4

/-- Wire bytes of one memory-map entry. -/
def entryBytes (e : MemMapEntry) : List Nat :=
  leBytes 8 e.physical_address ++ leBytes 8 e.size ++ leBytes 8 e.type

/-- Modelled from the spec: the payload bytes (everything after the 8-byte
attribute header) the builder emits for a record, with intra-record padding
zeroed. -/
def payloadBytes : URecord → List Nat
  | .platformInfo pt lmaj lmin name acpi hhb ptd dtb smb =>
      leBytes 4 pt ++ leBytes 2 lmaj ++ leBytes 2 lmin ++ fixedString 32 name ++
      leBytes 8 acpi ++ leBytes 8 hhb ++ leBytes 1 ptd ++ List.replicate 7 0 ++
      leBytes 8 dtb ++ leBytes 8 smb
  | .kernelInfo pb vb sz ptype dg pg di pi path =>
      leBytes 8 pb ++ leBytes 8 vb ++ leBytes 8 sz ++ leBytes 8 ptype ++
      guidBytes dg ++ guidBytes pg ++ leBytes 4 di ++ leBytes 4 pi ++
      fixedString 256 path
  | .memoryMap es => (es.map entryBytes).flatten
  | .moduleInfo rsv ty name addr sz =>
      leBytes 4 rsv ++ leBytes 4 ty ++ fixedString 64 name ++
      leBytes 8 addr ++ leBytes 8 sz
  | .commandLine text => text ++ List.replicate (alignUp (text.length + 1) 8 - text.length) 0
  | .framebufferInfo w h pitch bpp fmt pa =>
      leBytes 4 w ++ leBytes 4 h ++ leBytes 4 pitch ++ leBytes 2 bpp ++
      leBytes 2 fmt ++ leBytes 8 pa
  | .apmInfo ver fl pcs pcsl pmo rcs rcsl ds dsl =>
      leBytes 2 ver ++ leBytes 2 fl ++ leBytes 2 pcs ++ leBytes 2 pcsl ++
      leBytes 4 pmo ++ leBytes 2 rcs ++ leBytes 2 rcsl ++ leBytes 2 ds ++
      leBytes 2 dsl
  | .unknown _ payload => payload

/-- Modelled from the spec: the full wire bytes of one record — the
attribute header (`type`, `size`, both 32-bit little-endian) followed by
the payload. -/
def recordBytes (r : URecord) : List Nat :=
  leBytes 4 (rtype r) ++ leBytes 4 (rsize r) ++ payloadBytes r

/-- Modelled from the spec: the serialized blob `finish` produces — the
8-byte context header (protocol_major, protocol_minor, 16-bit reserved
zero, 32-bit attribute_count) followed by the records in append order. -/
def serializeBlob (major minor : Nat) (records : List URecord) : List Nat :=
  leBytes 1 major ++ leBytes 1 minor ++ leBytes 2 0 ++
  leBytes 4 records.length ++ (records.map recordBytes).flatten

/-! ## Validity of typed records

A record is valid when every numeric field fits its declared C width and
every fixed string fits its capacity, terminator included, with no
interior NUL. -/

def validStr (cap : Nat) (s : List Nat) : Prop :=
  s.length + 1 ≤ cap ∧ ∀ b ∈ s, 0 < b ∧ b < 256

def validGuid (g : Guid) : Prop :=
  g.data1 < 2 ^ 32 ∧ g.data2 < 2 ^ 16 ∧ g.data3 < 2 ^ 16 ∧
  g.data4.length = 8 ∧ ∀ b ∈ g.data4, b < 256

def validEntry (e : MemMapEntry) : Prop :=
  e.physical_address < 2 ^ 64 ∧ e.size < 2 ^ 64 ∧ e.type < 2 ^ 64

def validRecord : URecord → Prop
  | .platformInfo pt lmaj lmin name acpi hhb ptd dtb smb =>
      pt < 2 ^ 32 ∧ lmaj < 2 ^ 16 ∧ lmin < 2 ^ 16 ∧ validStr 32 name ∧
      acpi < 2 ^ 64 ∧ hhb < 2 ^ 64 ∧ ptd < 2 ^ 8 ∧ dtb < 2 ^ 64 ∧ smb < 2 ^ 64
  | .kernelInfo pb vb sz ptype dg pg di pi path =>
      pb < 2 ^ 64 ∧ vb < 2 ^ 64 ∧ sz < 2 ^ 64 ∧ ptype < 2 ^ 64 ∧
      validGuid dg ∧ validGuid pg ∧ di < 2 ^ 32 ∧ pi < 2 ^ 32 ∧
      validStr ULTRA_PATH_MAX path
  | .memoryMap es =>
      (∀ e ∈ es, validEntry e) ∧ 8 + 24 * es.length < 2 ^ 32
  | .moduleInfo rsv ty name addr sz =>
      rsv < 2 ^ 32 ∧ ty < 2 ^ 32 ∧ validStr 64 name ∧ addr < 2 ^ 64 ∧ sz < 2 ^ 64
  | .commandLine text =>
      (∀ b ∈ text, 0 < b ∧ b < 256) ∧ 8 + alignUp (text.length + 1) 8 < 2 ^ 32
  | .framebufferInfo w h pitch bpp fmt pa =>
      w < 2 ^ 32 ∧ h < 2 ^ 32 ∧ pitch < 2 ^ 32 ∧ bpp < 2 ^ 16 ∧
      fmt < 2 ^ 16 ∧ pa < 2 ^ 64
  | .apmInfo ver fl pcs pcsl pmo rcs rcsl ds dsl =>
      ver < 2 ^ 16 ∧ fl < 2 ^ 16 ∧ pcs < 2 ^ 16 ∧ pcsl < 2 ^ 16 ∧
      pmo < 2 ^ 32 ∧ rcs < 2 ^ 16 ∧ rcsl < 2 ^ 16 ∧ ds < 2 ^ 16 ∧ dsl < 2 ^ 16
  | .unknown ty payload =>
      ty < 2 ^ 32 ∧ ¬(1 ≤ ty ∧ ty ≤ 7) ∧ (∀ b ∈ payload, b < 256) ∧
      payload.length % 4 = 0 ∧ 8 + payload.length < 2 ^ 32

instance (cap : Nat) (s : List Nat) : Decidable (validStr cap s) := by
  unfold validStr; infer_instance

instance (g : Guid) : Decidable (validGuid g) := by
  unfold validGuid; infer_instance

instance (e : MemMapEntry) : Decidable (validEntry e) := by
  unfold validEntry; infer_instance

instance (r : URecord) : Decidable (validRecord r) := by
  cases r <;> (unfold validRecord; infer_instance)

/-! ## Decoding (walker side, modelled from the spec) -/

/-- Read a `w`-byte little-endian field, returning it and the rest. -/
def takeLE (w : Nat) (b : List Nat) : Nat × List Nat :=
  (leRead (b.take w), b.drop w)

/-- Read a fixed `cap`-byte string field: the bytes up to the first NUL,
clamped to the field, and the rest of the buffer past the field. -/
def takeStr (cap : Nat) (b : List Nat) : List Nat × List Nat :=
  ((b.take cap).takeWhile (fun x => x ≠ 0), b.drop cap)

/-- Read `n` raw bytes. -/
def takeRaw (n : Nat) (b : List Nat) : List Nat × List Nat :=
  (b.take n, b.drop n)

def takeGuid (b : List Nat) : Guid × List Nat :=
  let (d1, b) := takeLE 4 b
  let (d2, b) := takeLE 2 b
  let (d3, b) := takeLE 2 b
  let (d4, b) := takeRaw 8 b
  (⟨d1, d2, d3, d4⟩, b)

def parsePlatform (b : List Nat) : URecord :=
  let (pt, b) := takeLE 4 b
  let (lmaj, b) := takeLE 2 b
  let (lmin, b) := takeLE 2 b
  let (name, b) := takeStr 32 b
  let (acpi, b) := takeLE 8 b
  let (hhb, b) := takeLE 8 b
  let (ptd, b) := takeLE 1 b
  let (_, b) := takeRaw 7 b
  let (dtb, b) := takeLE 8 b
  let (smb, _) := takeLE 8 b
  .platformInfo pt lmaj lmin name acpi hhb ptd dtb smb

def parseKernel (b : List Nat) : URecord :=
  let (pb, b) := takeLE 8 b
  let (vb, b) := takeLE 8 b
  let (sz, b) := takeLE 8 b
  let (ptype, b) := takeLE 8 b
  let (dg, b) := takeGuid b
  let (pg, b) := takeGuid b
  let (di, b) := takeLE 4 b
  let (pi, b) := takeLE 4 b
  let (path, _) := takeStr ULTRA_PATH_MAX b
  .kernelInfo pb vb sz ptype dg pg di pi path

def parseEntries : Nat → List Nat → List MemMapEntry
  | 0, _ => []
  | n + 1, b =>
    let (pa, b) := takeLE 8 b
    let (sz, b) := takeLE 8 b
    let (ty, b) := takeLE 8 b
    ⟨pa, sz, ty⟩ :: parseEntries n b

def parseModule (b : List Nat) : URecord :=
  let (rsv, b) := takeLE 4 b
  let (ty, b) := takeLE 4 b
  let (name, b) := takeStr 64 b
  let (addr, b) := takeLE 8 b
  let (sz, _) := takeLE 8 b
  .moduleInfo rsv ty name addr sz

def parseFramebuffer (b : List Nat) : URecord :=
  let (w, b) := takeLE 4 b
  let (h, b) := takeLE 4 b
  let (pitch, b) := takeLE 4 b
  let (bpp, b) := takeLE 2 b
  let (fmt, b) := takeLE 2 b
  let (pa, _) := takeLE 8 b
  .framebufferInfo w h pitch bpp fmt pa

def parseApm (b : List Nat) : URecord :=
  let (ver, b) := takeLE 2 b
  let (fl, b) := takeLE 2 b
  let (pcs, b) := takeLE 2 b
  let (pcsl, b) := takeLE 2 b
  let (pmo, b) := takeLE 4 b
  let (rcs, b) := takeLE 2 b
  let (rcsl, b) := takeLE 2 b
  let (ds, b) := takeLE 2 b
  let (dsl, _) := takeLE 2 b
  .apmInfo ver fl pcs pcsl pmo rcs rcsl ds dsl

/-- Modelled from the spec: dispatch on the attribute `type`; a `size`
below the variant's fixed minimum is `RecordTooSmall` (`none`); an
unrecognized `type` yields the opaque record, not an error. -/
def parseRecord (ty sz : Nat) (payload : List Nat) : Option URecord :=
  if ty = ULTRA_ATTRIBUTE_PLATFORM_INFO then
    if sz < structSize ultra_platform_info_attribute then none
    else some (parsePlatform payload)
  else if ty = ULTRA_ATTRIBUTE_KERNEL_INFO then
    if sz < structSize ultra_kernel_info_attribute then none
    else some (parseKernel payload)
  else if ty = ULTRA_ATTRIBUTE_MEMORY_MAP then
    some (.memoryMap (parseEntries (ULTRA_MEMORY_MAP_ENTRY_COUNT sz) payload))
  else if ty = ULTRA_ATTRIBUTE_MODULE_INFO then
    if sz < structSize ultra_module_info_attribute then none
    else some (parseModule payload)
  else if ty = ULTRA_ATTRIBUTE_COMMAND_LINE then
    some (.commandLine (payload.takeWhile (fun x => x ≠ 0)))
  else if ty = ULTRA_ATTRIBUTE_FRAMEBUFFER_INFO then
    if sz < structSize ultra_framebuffer_attribute then none
    else some (parseFramebuffer payload)
  else if ty = ULTRA_ATTRIBUTE_APM_INFO then
    if sz < structSize ultra_apm_attribute then none
    else some (parseApm payload)
  else some (.unknown ty payload)

inductive DecodeError where
  | truncatedHeader (off : Nat)
  | truncatedData (off : Nat)
  | invalidRecordSize (off : Nat)
  | recordTooSmall (off : Nat)
  deriving DecidableEq, Repr

/-- `true` exactly for the two truncation signals. -/
def DecodeError.isTruncation : DecodeError → Bool
  | .truncatedHeader _ => true
  | .truncatedData _ => true
  | _ => false

/-- The decoder's only access to the buffer: `n` bytes at `off`, refused
whenever they would reach at or past `maxLen`. -/
def slice (buf : List Nat) (maxLen off n : Nat) : Option (List Nat) :=
  if off + n ≤ maxLen then some ((buf.drop off).take n) else none

/-- Modelled from the spec: one walker step at cursor `off` — read the
8-byte attribute header, validate `size` (at least the header size and
4-byte aligned), bound the whole record against `maxLen`, parse, and
advance the cursor by exactly `size`. -/
def decodeStep (buf : List Nat) (maxLen off : Nat) :
    Except DecodeError (URecord × Nat) :=
  match slice buf maxLen off 8 with
  | none => .error (.truncatedHeader off)
  | some hdr =>
    let ty := leRead (hdr.take 4)
    let sz := leRead (hdr.drop 4)
    if sz < 8 ∨ sz % 4 ≠ 0 then .error (.invalidRecordSize off)
    else
      match slice buf maxLen off sz with
      | none => .error (.truncatedData off)
      | some recBytes =>
        match parseRecord ty sz (recBytes.drop 8) with
        | none => .error (.recordTooSmall off)
        | some r => .ok (r, off + sz)

/-- Modelled from the spec: walk `n` records from cursor `off`, returning
the records decoded so far, the final cursor offset, and the error that
stopped the walk, if any. -/
def decodeRecords (buf : List Nat) (maxLen : Nat) :
    Nat → Nat → List URecord × Nat × Option DecodeError
  | off, 0 => ([], off, none)
  | off, n + 1 =>
    match decodeStep buf maxLen off with
    | .error e => ([], off, some e)
    | .ok (r, off2) =>
      let res := decodeRecords buf maxLen off2 n
      (r :: res.1, res.2.1, res.2.2)

structure BootView where
  protocol_major : Nat
  protocol_minor : Nat
  attribute_count : Nat
  records : List URecord
  final_offset : Nat
  stopped : Option DecodeError
  deriving DecidableEq, Repr

/-- Modelled from the spec: `open(buffer, max_len)` plus the full walk —
read the 8-byte context header, then decode `attribute_count` records
starting at offset 8. -/
def decode (buf : List Nat) (maxLen : Nat) : Except DecodeError BootView :=
  match slice buf maxLen 0 8 with
  | none => .error (.truncatedHeader 0)
  | some hdr =>
    let major := leRead (hdr.take 1)
    let minor := leRead ((hdr.drop 1).take 1)
    let count := leRead ((hdr.drop 4).take 4)
    let res := decodeRecords buf maxLen 8 count
    .ok ⟨major, minor, count, res.1, res.2.1, res.2.2⟩

/-! ## Builder state machine (modelled from the spec) -/

inductive BuildError where
  | fieldTooLong
  | capacityExceeded
  deriving DecidableEq, Repr

structure Builder where
  protocol_major : Nat
  protocol_minor : Nat
  records : List URecord
  deriving DecidableEq, Repr

/-- Modelled from the spec: `begin(major, minor)`. -/
def beginBuild (major minor : Nat) : Builder := ⟨major, minor, []⟩

/-- Does every fixed string of the record fit its capacity, NUL included? -/
def fitsFixedStrings : URecord → Bool
  | .platformInfo _ _ _ name _ _ _ _ _ => name.length + 1 ≤ 32
  | .kernelInfo _ _ _ _ _ _ _ _ path => path.length + 1 ≤ ULTRA_PATH_MAX
  | .moduleInfo _ _ name _ _ => name.length + 1 ≤ 64
  | _ => true

/-- Modelled from the spec: `add(record)` appends the record, or fails
with `FieldTooLong` when a fixed string field would not fit with its
terminator; it never truncates. -/
def addRecord (b : Builder) (r : URecord) : Except BuildError Builder :=
  if fitsFixedStrings r then .ok ⟨b.protocol_major, b.protocol_minor, b.records ++ [r]⟩
  else .error .fieldTooLong

def addAll (b : Builder) : List URecord → Except BuildError Builder
  | [] => .ok b
  | r :: rs =>
    match addRecord b r with
    | .error e => .error e
    | .ok b2 => addAll b2 rs

/-- Modelled from the spec: `finish(buffer)` serializes the context header
and all records into caller storage of capacity `cap`, returning the bytes
and total length written, or `CapacityExceeded`. -/
def finishBuild (b : Builder) (cap : Nat) : Except BuildError (List Nat × Nat) :=
  let out := serializeBlob b.protocol_major b.protocol_minor b.records
  if out.length ≤ cap then .ok (out, out.length) else .error .capacityExceeded

instance {ε α : Type} [DecidableEq ε] [DecidableEq α] : DecidableEq (Except ε α) :=
  fun a b =>
  match a, b with
  | .error e1, .error e2 =>
    if h : e1 = e2 then isTrue (by rw [h]) else isFalse (by intro c; cases c; exact h rfl)
  | .error _, .ok _ => isFalse (by intro c; cases c)
  | .ok _, .error _ => isFalse (by intro c; cases c)
  | .ok a1, .ok a2 =>
    if h : a1 = a2 then isTrue (by rw [h]) else isFalse (by intro c; cases c; exact h rfl)

/-- Is this the walker's opaque (unrecognized-type) view? -/
def isOpaque : URecord → Bool
  | .unknown _ _ => true
  | _ => false

/-- The known region-kind values of the memory-map enumeration. -/
def knownMemoryTypes : List Nat :=
  [ULTRA_MEMORY_TYPE_INVALID, ULTRA_MEMORY_TYPE_FREE, ULTRA_MEMORY_TYPE_RESERVED,
   ULTRA_MEMORY_TYPE_RECLAIMABLE, ULTRA_MEMORY_TYPE_NVS,
   ULTRA_MEMORY_TYPE_LOADER_RECLAIMABLE, ULTRA_MEMORY_TYPE_MODULE,
   ULTRA_MEMORY_TYPE_KERNEL_STACK, ULTRA_MEMORY_TYPE_KERNEL_BINARY]

/-- The known pixel-format values. -/
def knownFbFormats : List Nat :=
  [ULTRA_FB_FORMAT_INVALID, ULTRA_FB_FORMAT_RGB888, ULTRA_FB_FORMAT_BGR888,
   ULTRA_FB_FORMAT_RGBX8888, ULTRA_FB_FORMAT_XRGB8888]

/-- The known partition-scheme values. -/
def knownPartitionTypes : List Nat :=
  [ULTRA_PARTITION_TYPE_INVALID, ULTRA_PARTITION_TYPE_RAW, ULTRA_PARTITION_TYPE_MBR,
   ULTRA_PARTITION_TYPE_GPT]

/-! ## Little-endian encoding lemmas -/

theorem leBytes_length (w v : Nat) : (leBytes w v).length = w := by
  induction w generalizing v with
  | zero => rfl
  | succ k ih => simp [leBytes, ih]

theorem leRead_leBytes (w v : Nat) : leRead (leBytes w v) = v % 256 ^ w := by
  induction w generalizing v with
  | zero => simp [leBytes, leRead, Nat.mod_one]
  | succ k ih =>
    simp only [leBytes, leRead, ih]
    rw [Nat.mod_mod_of_dvd _ (by norm_num)]
    have h256 : (256 : Nat) ^ (k + 1) = 256 * 256 ^ k := by ring
    rw [h256, Nat.mod_mul]

theorem leRead_leBytes_of_lt (w v : Nat) (h : v < 256 ^ w) :
    leRead (leBytes w v) = v := by
  rw [leRead_leBytes, Nat.mod_eq_of_lt h]

theorem leBytes_lt (w v : Nat) : ∀ b ∈ leBytes w v, b < 256 := by
  induction w generalizing v with
  | zero => simp [leBytes]
  | succ k ih =>
    intro b hb
    simp only [leBytes, List.mem_cons] at hb
    rcases hb with h | h
    · omega
    · exact ih _ b h

/-! ## Size and alignment lemmas -/

theorem structSize_header : structSize ultra_attribute_header = 8 := by decide

theorem structSize_platform : structSize ultra_platform_info_attribute = 88 := by decide

theorem structSize_kernel : structSize ultra_kernel_info_attribute = 336 := by decide

theorem structSize_entry : structSize ultra_memory_map_entry = 24 := by decide

theorem structSize_module : structSize ultra_module_info_attribute = 96 := by decide

theorem structSize_fbattr : structSize ultra_framebuffer_attribute = 32 := by decide

theorem structSize_apmattr : structSize ultra_apm_attribute = 28 := by decide

theorem alignUp8_ge (n : Nat) : n ≤ alignUp n 8 := by
  unfold alignUp; omega

theorem alignUp8_mod (n : Nat) : alignUp n 8 % 8 = 0 := by
  unfold alignUp; omega

theorem fixedString_length (cap : Nat) (s : List Nat) (h : s.length ≤ cap) :
    (fixedString cap s).length = cap := by
  simp [fixedString]; omega

theorem guidBytes_length (g : Guid) (h : g.data4.length = 8) :
    (guidBytes g).length = 16 := by
  simp [guidBytes, leBytes_length, h]

theorem entryBytes_length (e : MemMapEntry) : (entryBytes e).length = 24 := by
  simp [entryBytes, leBytes_length]

theorem entriesBytes_length (es : List MemMapEntry) :
    ((es.map entryBytes).flatten).length = 24 * es.length := by
  induction es with
  | nil => simp
  | cons e es ih => simp [entryBytes_length, ih]; ring

/-- Every record's payload length is its declared `size` minus the 8-byte
attribute header. -/
theorem payloadBytes_length (r : URecord) (h : validRecord r) :
    (payloadBytes r).length + 8 = rsize r := by
  cases r with
  | platformInfo pt lmaj lmin name acpi hhb ptd dtb smb =>
    obtain ⟨-, -, -, ⟨hs, -⟩, -⟩ := h
    simp [payloadBytes, rsize, leBytes_length, structSize_platform,
      fixedString_length 32 name (by omega)]
  | kernelInfo pb vb sz ptype dg pg di pi path =>
    obtain ⟨-, -, -, -, hdg, hpg, -, -, hs, -⟩ := h
    simp only [ULTRA_PATH_MAX] at hs
    simp [payloadBytes, rsize, leBytes_length, structSize_kernel, ULTRA_PATH_MAX,
      guidBytes_length dg hdg.2.2.2.1, guidBytes_length pg hpg.2.2.2.1,
      fixedString_length 256 path (by omega)]
  | memoryMap es =>
    have hsum : (List.map (List.length ∘ entryBytes) es).sum = 24 * es.length := by
      clear h
      induction es with
      | nil => simp
      | cons e es ih => simp [Function.comp, entryBytes_length, ih]; ring
    simp [payloadBytes, rsize, structSize_header, structSize_entry, hsum]
    ring
  | moduleInfo rsv ty name addr sz =>
    obtain ⟨-, -, ⟨hs, -⟩, -⟩ := h
    simp [payloadBytes, rsize, leBytes_length, structSize_module,
      fixedString_length 64 name (by omega)]
  | commandLine text =>
    have := alignUp8_ge (text.length + 1)
    simp [payloadBytes, rsize, structSize_header]
    omega
  | framebufferInfo w hh pitch bpp fmt pa =>
    simp [payloadBytes, rsize, leBytes_length, structSize_fbattr]
  | apmInfo ver fl pcs pcsl pmo rcs rcsl ds dsl =>
    simp [payloadBytes, rsize, leBytes_length, structSize_apmattr]
  | unknown ty payload =>
    simp [payloadBytes, rsize, structSize_header]
    omega

theorem recordBytes_length (r : URecord) (h : validRecord r) :
    (recordBytes r).length = rsize r := by
  have := payloadBytes_length r h
  simp [recordBytes, leBytes_length]
  omega

theorem rsize_ge_8 (r : URecord) : 8 ≤ rsize r := by
  cases r <;>
    simp [rsize, structSize_platform, structSize_kernel, structSize_header,
      structSize_entry, structSize_module, structSize_fbattr, structSize_apmattr]

theorem rsize_mod4 (r : URecord) (h : validRecord r) : rsize r % 4 = 0 := by
  cases r with
  | memoryMap es => simp [rsize, structSize_header, structSize_entry]; omega
  | commandLine text =>
    have := alignUp8_mod (text.length + 1)
    simp [rsize, structSize_header]
    omega
  | unknown ty payload =>
    obtain ⟨-, -, -, hm, -⟩ := h
    simp [rsize, structSize_header]
    omega
  | _ =>
    simp [rsize, structSize_platform, structSize_kernel, structSize_module,
      structSize_fbattr, structSize_apmattr]

/-! ## Parsing is a left inverse of serialization, chunk by chunk -/

theorem takeLE_leBytes (w v : Nat) (rest : List Nat) :
    takeLE w (leBytes w v ++ rest) = (v % 256 ^ w, rest) := by
  unfold takeLE
  rw [List.take_left' (leBytes_length w v), List.drop_left' (leBytes_length w v),
    leRead_leBytes]

theorem takeRaw_append (l : List Nat) (n : Nat) (h : l.length = n) (rest : List Nat) :
    takeRaw n (l ++ rest) = (l, rest) := by
  unfold takeRaw
  rw [List.take_left' h, List.drop_left' h]

theorem takeWhile_replicate_zero (k : Nat) :
    (List.replicate k 0).takeWhile (fun x => x ≠ 0) = ([] : List Nat) := by
  cases k <;> simp [List.replicate, List.takeWhile]

theorem takeStr_fixedString (cap : Nat) (s : List Nat) (hlen : s.length ≤ cap)
    (hnz : ∀ b ∈ s, b ≠ 0) (rest : List Nat) :
    takeStr cap (fixedString cap s ++ rest) = (s, rest) := by
  unfold takeStr
  rw [List.take_left' (fixedString_length cap s hlen),
    List.drop_left' (fixedString_length cap s hlen)]
  unfold fixedString
  rw [List.takeWhile_append_of_pos (by simpa using hnz), takeWhile_replicate_zero,
    List.append_nil]

theorem takeGuid_guidBytes (g : Guid) (h : validGuid g) (rest : List Nat) :
    takeGuid (guidBytes g ++ rest) = (g, rest) := by
  obtain ⟨h1, h2, h3, h4, -⟩ := h
  simp only [takeGuid, guidBytes, List.append_assoc, takeLE_leBytes,
    takeRaw_append g.data4 8 h4]
  rw [Nat.mod_eq_of_lt (lt_of_lt_of_le h1 (by norm_num)),
    Nat.mod_eq_of_lt (lt_of_lt_of_le h2 (by norm_num)),
    Nat.mod_eq_of_lt (lt_of_lt_of_le h3 (by norm_num))]

/-- Strip `v % 256 ^ w` when `v` fits the field width. -/
theorem mod_pow_self (v p : Nat) (h : v < p) : v % p = v := Nat.mod_eq_of_lt h

theorem parsePlatform_payload (pt lmaj lmin : Nat) (name : List Nat)
    (acpi hhb ptd dtb smb : Nat) (rest : List Nat)
    (h : validRecord (.platformInfo pt lmaj lmin name acpi hhb ptd dtb smb)) :
    parsePlatform
        (payloadBytes (.platformInfo pt lmaj lmin name acpi hhb ptd dtb smb) ++ rest) =
      .platformInfo pt lmaj lmin name acpi hhb ptd dtb smb := by
  obtain ⟨h1, h2, h3, ⟨hs1, hs2⟩, h4, h5, h6, h7, h8⟩ := h
  simp only [payloadBytes, parsePlatform, List.append_assoc, takeLE_leBytes,
    takeStr_fixedString 32 name (by omega) (fun b hb => (hs2 b hb).1.ne'),
    takeRaw_append (List.replicate 7 0) 7 (by simp)]
  rw [mod_pow_self pt _ (lt_of_lt_of_le h1 (by norm_num)),
    mod_pow_self lmaj _ (lt_of_lt_of_le h2 (by norm_num)),
    mod_pow_self lmin _ (lt_of_lt_of_le h3 (by norm_num)),
    mod_pow_self acpi _ (lt_of_lt_of_le h4 (by norm_num)),
    mod_pow_self hhb _ (lt_of_lt_of_le h5 (by norm_num)),
    mod_pow_self ptd _ (lt_of_lt_of_le h6 (by norm_num)),
    mod_pow_self dtb _ (lt_of_lt_of_le h7 (by norm_num)),
    mod_pow_self smb _ (lt_of_lt_of_le h8 (by norm_num))]

theorem parseKernel_payload (pb vb sz ptype : Nat) (dg pg : Guid) (di pi : Nat)
    (path rest : List Nat)
    (h : validRecord (.kernelInfo pb vb sz ptype dg pg di pi path)) :
    parseKernel (payloadBytes (.kernelInfo pb vb sz ptype dg pg di pi path) ++ rest) =
      .kernelInfo pb vb sz ptype dg pg di pi path := by
  obtain ⟨h1, h2, h3, h4, hdg, hpg, h5, h6, hs1, hs2⟩ := h
  simp only [ULTRA_PATH_MAX] at hs1
  simp only [payloadBytes, parseKernel, ULTRA_PATH_MAX, List.append_assoc, takeLE_leBytes,
    takeGuid_guidBytes dg hdg, takeGuid_guidBytes pg hpg,
    takeStr_fixedString 256 path (by omega) (fun b hb => (hs2 b hb).1.ne')]
  rw [mod_pow_self pb _ (lt_of_lt_of_le h1 (by norm_num)),
    mod_pow_self vb _ (lt_of_lt_of_le h2 (by norm_num)),
    mod_pow_self sz _ (lt_of_lt_of_le h3 (by norm_num)),
    mod_pow_self ptype _ (lt_of_lt_of_le h4 (by norm_num)),
    mod_pow_self di _ (lt_of_lt_of_le h5 (by norm_num)),
    mod_pow_self pi _ (lt_of_lt_of_le h6 (by norm_num))]

theorem parseEntries_entriesBytes (es : List MemMapEntry)
    (h : ∀ e ∈ es, validEntry e) (rest : List Nat) :
    parseEntries es.length ((es.map entryBytes).flatten ++ rest) = es := by
  induction es with
  | nil => rfl
  | cons e es ih =>
    obtain ⟨he1, he2, he3⟩ := h e (by simp)
    simp only [List.map_cons, List.flatten_cons, List.length_cons, List.append_assoc,
      parseEntries, entryBytes, takeLE_leBytes]
    rw [mod_pow_self e.physical_address _ (lt_of_lt_of_le he1 (by norm_num)),
      mod_pow_self e.size _ (lt_of_lt_of_le he2 (by norm_num)),
      mod_pow_self e.type _ (lt_of_lt_of_le he3 (by norm_num)),
      ih (fun x hx => h x (by simp [hx]))]

theorem parseModule_payload (rsv ty : Nat) (name : List Nat) (addr sz : Nat)
    (rest : List Nat) (h : validRecord (.moduleInfo rsv ty name addr sz)) :
    parseModule (payloadBytes (.moduleInfo rsv ty name addr sz) ++ rest) =
      .moduleInfo rsv ty name addr sz := by
  obtain ⟨h1, h2, ⟨hs1, hs2⟩, h3, h4⟩ := h
  simp only [payloadBytes, parseModule, List.append_assoc, takeLE_leBytes,
    takeStr_fixedString 64 name (by omega) (fun b hb => (hs2 b hb).1.ne')]
  rw [mod_pow_self rsv _ (lt_of_lt_of_le h1 (by norm_num)),
    mod_pow_self ty _ (lt_of_lt_of_le h2 (by norm_num)),
    mod_pow_self addr _ (lt_of_lt_of_le h3 (by norm_num)),
    mod_pow_self sz _ (lt_of_lt_of_le h4 (by norm_num))]

theorem parseFramebuffer_payload (w h pitch bpp fmt pa : Nat) (rest : List Nat)
    (hv : validRecord (.framebufferInfo w h pitch bpp fmt pa)) :
    parseFramebuffer (payloadBytes (.framebufferInfo w h pitch bpp fmt pa) ++ rest) =
      .framebufferInfo w h pitch bpp fmt pa := by
  obtain ⟨h1, h2, h3, h4, h5, h6⟩ := hv
  simp only [payloadBytes, parseFramebuffer, List.append_assoc, takeLE_leBytes]
  rw [mod_pow_self w _ (lt_of_lt_of_le h1 (by norm_num)),
    mod_pow_self h _ (lt_of_lt_of_le h2 (by norm_num)),
    mod_pow_self pitch _ (lt_of_lt_of_le h3 (by norm_num)),
    mod_pow_self bpp _ (lt_of_lt_of_le h4 (by norm_num)),
    mod_pow_self fmt _ (lt_of_lt_of_le h5 (by norm_num)),
    mod_pow_self pa _ (lt_of_lt_of_le h6 (by norm_num))]

theorem parseApm_payload (ver fl pcs pcsl pmo rcs rcsl ds dsl : Nat) (rest : List Nat)
    (h : validRecord (.apmInfo ver fl pcs pcsl pmo rcs rcsl ds dsl)) :
    parseApm (payloadBytes (.apmInfo ver fl pcs pcsl pmo rcs rcsl ds dsl) ++ rest) =
      .apmInfo ver fl pcs pcsl pmo rcs rcsl ds dsl := by
  obtain ⟨h1, h2, h3, h4, h5, h6, h7, h8, h9⟩ := h
  simp only [payloadBytes, parseApm, List.append_assoc, takeLE_leBytes]
  rw [mod_pow_self ver _ (lt_of_lt_of_le h1 (by norm_num)),
    mod_pow_self fl _ (lt_of_lt_of_le h2 (by norm_num)),
    mod_pow_self pcs _ (lt_of_lt_of_le h3 (by norm_num)),
    mod_pow_self pcsl _ (lt_of_lt_of_le h4 (by norm_num)),
    mod_pow_self pmo _ (lt_of_lt_of_le h5 (by norm_num)),
    mod_pow_self rcs _ (lt_of_lt_of_le h6 (by norm_num)),
    mod_pow_self rcsl _ (lt_of_lt_of_le h7 (by norm_num)),
    mod_pow_self ds _ (lt_of_lt_of_le h8 (by norm_num)),
    mod_pow_self dsl _ (lt_of_lt_of_le h9 (by norm_num))]

theorem rtype_lt (r : URecord) (h : validRecord r) : rtype r < 2 ^ 32 := by
  cases r with
  | unknown ty payload => exact h.1
  | _ =>
    simp [rtype, ULTRA_ATTRIBUTE_PLATFORM_INFO, ULTRA_ATTRIBUTE_KERNEL_INFO,
      ULTRA_ATTRIBUTE_MEMORY_MAP, ULTRA_ATTRIBUTE_MODULE_INFO,
      ULTRA_ATTRIBUTE_COMMAND_LINE, ULTRA_ATTRIBUTE_FRAMEBUFFER_INFO,
      ULTRA_ATTRIBUTE_APM_INFO]

theorem rsize_lt (r : URecord) (h : validRecord r) : rsize r < 2 ^ 32 := by
  cases r with
  | memoryMap es =>
    have := h.2
    simp [rsize, structSize_header, structSize_entry]
    omega
  | commandLine text =>
    have := h.2
    simp [rsize, structSize_header] at this ⊢
    omega
  | unknown ty payload =>
    have := h.2.2.2.2
    simp [rsize, structSize_header]
    omega
  | _ =>
    simp [rsize, structSize_platform, structSize_kernel, structSize_module,
      structSize_fbattr, structSize_apmattr]

/-- Parsing one serialized record's type, declared size and payload
recovers the record exactly. -/
theorem parseRecord_payloadBytes (r : URecord) (h : validRecord r) :
    parseRecord (rtype r) (rsize r) (payloadBytes r) = some r := by
  cases r with
  | platformInfo pt lmaj lmin name acpi hhb ptd dtb smb =>
    have := parsePlatform_payload pt lmaj lmin name acpi hhb ptd dtb smb [] h
    simp only [List.append_nil] at this
    simp [parseRecord, rtype, rsize, ULTRA_ATTRIBUTE_PLATFORM_INFO, this]
  | kernelInfo pb vb sz ptype dg pg di pi path =>
    have := parseKernel_payload pb vb sz ptype dg pg di pi path [] h
    simp only [List.append_nil] at this
    simp [parseRecord, rtype, rsize, ULTRA_ATTRIBUTE_PLATFORM_INFO,
      ULTRA_ATTRIBUTE_KERNEL_INFO, this]
  | memoryMap es =>
    have := parseEntries_entriesBytes es h.1 []
    simp only [List.append_nil] at this
    have hcount : ULTRA_MEMORY_MAP_ENTRY_COUNT (rsize (.memoryMap es)) = es.length := by
      simp [ULTRA_MEMORY_MAP_ENTRY_COUNT, rsize, structSize_header, structSize_entry]
    simp [parseRecord, rtype, ULTRA_ATTRIBUTE_PLATFORM_INFO,
      ULTRA_ATTRIBUTE_KERNEL_INFO, ULTRA_ATTRIBUTE_MEMORY_MAP, hcount,
      payloadBytes, this]
  | moduleInfo rsv ty name addr sz =>
    have := parseModule_payload rsv ty name addr sz [] h
    simp only [List.append_nil] at this
    simp [parseRecord, rtype, rsize, ULTRA_ATTRIBUTE_PLATFORM_INFO,
      ULTRA_ATTRIBUTE_KERNEL_INFO, ULTRA_ATTRIBUTE_MEMORY_MAP,
      ULTRA_ATTRIBUTE_MODULE_INFO, this]
  | commandLine text =>
    have hnz : ∀ b ∈ text, (b ≠ 0) := fun b hb => (h.1 b hb).1.ne'
    have htw : (payloadBytes (.commandLine text)).takeWhile (fun x => x ≠ 0) = text := by
      unfold payloadBytes
      rw [List.takeWhile_append_of_pos (by simpa using hnz), takeWhile_replicate_zero,
        List.append_nil]
    simp only [ne_eq, decide_not] at htw
    simp [parseRecord, rtype, ULTRA_ATTRIBUTE_PLATFORM_INFO,
      ULTRA_ATTRIBUTE_KERNEL_INFO, ULTRA_ATTRIBUTE_MEMORY_MAP,
      ULTRA_ATTRIBUTE_MODULE_INFO, ULTRA_ATTRIBUTE_COMMAND_LINE, htw]
  | framebufferInfo w hh pitch bpp fmt pa =>
    have := parseFramebuffer_payload w hh pitch bpp fmt pa [] h
    simp only [List.append_nil] at this
    simp [parseRecord, rtype, rsize, ULTRA_ATTRIBUTE_PLATFORM_INFO,
      ULTRA_ATTRIBUTE_KERNEL_INFO, ULTRA_ATTRIBUTE_MEMORY_MAP,
      ULTRA_ATTRIBUTE_MODULE_INFO, ULTRA_ATTRIBUTE_COMMAND_LINE,
      ULTRA_ATTRIBUTE_FRAMEBUFFER_INFO, this]
  | apmInfo ver fl pcs pcsl pmo rcs rcsl ds dsl =>
    have := parseApm_payload ver fl pcs pcsl pmo rcs rcsl ds dsl [] h
    simp only [List.append_nil] at this
    simp [parseRecord, rtype, rsize, ULTRA_ATTRIBUTE_PLATFORM_INFO,
      ULTRA_ATTRIBUTE_KERNEL_INFO, ULTRA_ATTRIBUTE_MEMORY_MAP,
      ULTRA_ATTRIBUTE_MODULE_INFO, ULTRA_ATTRIBUTE_COMMAND_LINE,
      ULTRA_ATTRIBUTE_FRAMEBUFFER_INFO, ULTRA_ATTRIBUTE_APM_INFO, this]
  | unknown ty payload =>
    have hty := h.2.1
    have hn1 : ty ≠ 1 := by omega
    have hn2 : ty ≠ 2 := by omega
    have hn3 : ty ≠ 3 := by omega
    have hn4 : ty ≠ 4 := by omega
    have hn5 : ty ≠ 5 := by omega
    have hn6 : ty ≠ 6 := by omega
    have hn7 : ty ≠ 7 := by omega
    simp [parseRecord, rtype, ULTRA_ATTRIBUTE_PLATFORM_INFO,
      ULTRA_ATTRIBUTE_KERNEL_INFO, ULTRA_ATTRIBUTE_MEMORY_MAP,
      ULTRA_ATTRIBUTE_MODULE_INFO, ULTRA_ATTRIBUTE_COMMAND_LINE,
      ULTRA_ATTRIBUTE_FRAMEBUFFER_INFO, ULTRA_ATTRIBUTE_APM_INFO, payloadBytes,
      hn1, hn2, hn3, hn4, hn5, hn6, hn7]

/-! ## Walker correctness over serialized buffers -/

theorem recordBytes_take8 (r : URecord) :
    (recordBytes r).take 8 = leBytes 4 (rtype r) ++ leBytes 4 (rsize r) := by
  rw [recordBytes]
  exact List.take_left' (by simp [leBytes_length])

theorem recordBytes_drop8 (r : URecord) :
    (recordBytes r).drop 8 = payloadBytes r := by
  rw [recordBytes]
  exact List.drop_left' (by simp [leBytes_length])

/-- One decode step at the start of a serialized record recovers that
record and advances the cursor by its declared size. -/
theorem decodeStep_ok (A B : List Nat) (r : URecord) (maxLen : Nat)
    (h : validRecord r) (hoff : A.length + rsize r ≤ maxLen) :
    decodeStep (A ++ (recordBytes r ++ B)) maxLen A.length =
      .ok (r, A.length + rsize r) := by
  have hge8 := rsize_ge_8 r
  have h8 : A.length + 8 ≤ maxLen := by omega
  have hrecLen : (recordBytes r).length = rsize r := recordBytes_length r h
  have hdrop : (A ++ (recordBytes r ++ B)).drop A.length = recordBytes r ++ B :=
    List.drop_left A (recordBytes r ++ B)
  have hslice8 : slice (A ++ (recordBytes r ++ B)) maxLen A.length 8 =
      some (leBytes 4 (rtype r) ++ leBytes 4 (rsize r)) := by
    unfold slice
    rw [if_pos h8, hdrop, List.take_append_of_le_length (by omega), recordBytes_take8]
  have hty : leRead ((leBytes 4 (rtype r) ++ leBytes 4 (rsize r)).take 4) = rtype r := by
    rw [List.take_left' (leBytes_length 4 (rtype r)), leRead_leBytes,
      Nat.mod_eq_of_lt (lt_of_lt_of_le (rtype_lt r h) (by norm_num))]
  have hsz : leRead ((leBytes 4 (rtype r) ++ leBytes 4 (rsize r)).drop 4) = rsize r := by
    rw [List.drop_left' (leBytes_length 4 (rtype r)), leRead_leBytes,
      Nat.mod_eq_of_lt (lt_of_lt_of_le (rsize_lt r h) (by norm_num))]
  have hcond : ¬(rsize r < 8 ∨ rsize r % 4 ≠ 0) := by
    have := rsize_mod4 r h
    omega
  have hsliceSz : slice (A ++ (recordBytes r ++ B)) maxLen A.length (rsize r) =
      some (recordBytes r) := by
    unfold slice
    rw [if_pos hoff, hdrop, List.take_left' hrecLen]
  unfold decodeStep
  rw [hslice8]
  simp only [hty, hsz, if_neg hcond, hsliceSz, recordBytes_drop8,
    parseRecord_payloadBytes r h]

theorem flatten_recordBytes_length (rs : List URecord) (h : ∀ r ∈ rs, validRecord r) :
    ((rs.map recordBytes).flatten).length = (rs.map rsize).sum := by
  induction rs with
  | nil => rfl
  | cons r rest ih =>
    simp only [List.map_cons, List.flatten_cons, List.length_append, List.sum_cons,
      recordBytes_length r (h r (by simp)), ih (fun x hx => h x (by simp [hx]))]

/-- Walking `rs.length` records over their serialization decodes exactly
`rs`, ending at the offset past the last record, with no error. -/
theorem decodeRecords_ok (rs : List URecord) (A : List Nat) (maxLen : Nat)
    (h : ∀ r ∈ rs, validRecord r)
    (hlen : A.length + (rs.map rsize).sum ≤ maxLen) :
    decodeRecords (A ++ (rs.map recordBytes).flatten) maxLen A.length rs.length =
      (rs, A.length + (rs.map rsize).sum, none) := by
  induction rs generalizing A with
  | nil => simp [decodeRecords]
  | cons r rest ih =>
    have hvr : validRecord r := h r (by simp)
    have hvrest : ∀ x ∈ rest, validRecord x := fun x hx => h x (by simp [hx])
    have hsum : (List.map rsize (r :: rest)).sum = rsize r + (rest.map rsize).sum := by
      simp
    rw [hsum] at hlen
    have hstep : decodeStep (A ++ ((r :: rest).map recordBytes).flatten) maxLen A.length =
        .ok (r, A.length + rsize r) := by
      simp only [List.map_cons, List.flatten_cons, List.append_assoc]
      exact decodeStep_ok A _ r maxLen hvr (by omega)
    have hbuf : A ++ ((r :: rest).map recordBytes).flatten =
        (A ++ recordBytes r) ++ (rest.map recordBytes).flatten := by
      simp [List.append_assoc]
    have hAlen : (A ++ recordBytes r).length = A.length + rsize r := by
      simp [recordBytes_length r hvr]
    have hih := ih (A ++ recordBytes r) hvrest (by rw [hAlen]; omega)
    rw [hAlen, ← hbuf] at hih
    simp only [List.length_cons, decodeRecords]
    rw [hstep]
    simp only [hih, hsum]
    rw [Nat.add_assoc]

theorem serializeBlob_length (major minor : Nat) (rs : List URecord)
    (h : ∀ r ∈ rs, validRecord r) :
    (serializeBlob major minor rs).length = 8 + (rs.map rsize).sum := by
  have := flatten_recordBytes_length rs h
  simp [serializeBlob, leBytes_length, this]
  omega

/-- The context-header bytes of a blob, written out. -/
theorem serializeBlob_ctx (major minor : Nat) (rs : List URecord)
    (hmaj : major < 256) (hmin : minor < 256) :
    leBytes 1 major ++ leBytes 1 minor ++ leBytes 2 0 ++ leBytes 4 rs.length =
      major :: minor :: 0 :: 0 :: leBytes 4 rs.length := by
  simp [leBytes, Nat.mod_eq_of_lt hmaj, Nat.mod_eq_of_lt hmin]

/-- Decoding a serialized blob of valid records over its own length yields
the protocol version, the record count, all records in order, the final
offset `8 +` the sum of record sizes, and no error. -/
theorem decode_serializeBlob (major minor : Nat) (rs : List URecord)
    (h : ∀ r ∈ rs, validRecord r) (hmaj : major < 256) (hmin : minor < 256)
    (hcnt : rs.length < 2 ^ 32) :
    decode (serializeBlob major minor rs) (serializeBlob major minor rs).length =
      .ok ⟨major, minor, rs.length, rs, 8 + (rs.map rsize).sum, none⟩ := by
  have hlenB := serializeBlob_length major minor rs h
  set ctx : List Nat :=
    leBytes 1 major ++ leBytes 1 minor ++ leBytes 2 0 ++ leBytes 4 rs.length with hctx
  have hctxLen : ctx.length = 8 := by simp [hctx, leBytes_length]
  have hblob : serializeBlob major minor rs = ctx ++ (rs.map recordBytes).flatten := by
    simp [serializeBlob, hctx, List.append_assoc]
  have hcons : ctx = major :: minor :: 0 :: 0 :: leBytes 4 rs.length := by
    rw [hctx]; exact serializeBlob_ctx major minor rs hmaj hmin
  have h8le : (8 : Nat) ≤ (serializeBlob major minor rs).length := by omega
  have hslice : slice (serializeBlob major minor rs)
      (serializeBlob major minor rs).length 0 8 = some ctx := by
    unfold slice
    rw [if_pos (by omega), List.drop_zero, hblob,
      List.take_append_of_le_length (by omega), List.take_of_length_le (by omega)]
  have hmajRead : leRead (ctx.take 1) = major := by
    rw [hcons]
    simp [leRead, Nat.mod_eq_of_lt hmaj]
  have hminRead : leRead ((ctx.drop 1).take 1) = minor := by
    rw [hcons]
    simp [leRead, Nat.mod_eq_of_lt hmin]
  have hcntRead : leRead ((ctx.drop 4).take 4) = rs.length := by
    rw [hcons]
    simp only [List.drop_succ_cons, List.drop_zero]
    rw [List.take_of_length_le (by simp [leBytes_length]), leRead_leBytes,
      Nat.mod_eq_of_lt (lt_of_lt_of_le hcnt (by norm_num))]
  have hrecs := decodeRecords_ok rs ctx (serializeBlob major minor rs).length h
    (by rw [hctxLen]; omega)
  rw [hctxLen] at hrecs
  unfold decode
  rw [hslice]
  simp only [hmajRead, hminRead, hcntRead, ← hblob] at hrecs ⊢
  rw [hrecs]

/-! ## Builder pipeline -/

theorem fitsFixedStrings_of_valid (r : URecord) (h : validRecord r) :
    fitsFixedStrings r = true := by
  cases r with
  | platformInfo pt lmaj lmin name acpi hhb ptd dtb smb =>
    obtain ⟨-, -, -, ⟨hs, -⟩, -⟩ := h
    simp [fitsFixedStrings]
    omega
  | kernelInfo pb vb sz ptype dg pg di pi path =>
    obtain ⟨-, -, -, -, -, -, -, -, hs, -⟩ := h
    simp [fitsFixedStrings]
    exact hs
  | moduleInfo rsv ty name addr sz =>
    obtain ⟨-, -, ⟨hs, -⟩, -⟩ := h
    simp [fitsFixedStrings]
    omega
  | _ => rfl

/-- `add` succeeds on every valid record, appending it; so a fold of `add`
over valid records accumulates exactly those records in order. -/
theorem addAll_ok (rs : List URecord) (b : Builder) (h : ∀ r ∈ rs, validRecord r) :
    addAll b rs = .ok ⟨b.protocol_major, b.protocol_minor, b.records ++ rs⟩ := by
  induction rs generalizing b with
  | nil => simp [addAll]
  | cons r rest ih =>
    have hfit := fitsFixedStrings_of_valid r (h r (by simp))
    simp only [addAll, addRecord, hfit, if_pos]
    rw [ih _ (fun x hx => h x (by simp [hx]))]
    simp

/-! ## The decoder reads nothing at or past `max_len` -/

/-- `slice` sees only the first `maxLen` bytes of the buffer. -/
theorem slice_take_self (buf : List Nat) (L off n : Nat) :
    slice (buf.take L) L off n = slice buf L off n := by
  unfold slice
  by_cases h : off + n ≤ L
  · rw [if_pos h, if_pos h, List.drop_take, List.take_take,
      Nat.min_eq_left (by omega)]
  · rw [if_neg h, if_neg h]

theorem decodeStep_take_self (buf : List Nat) (L off : Nat) :
    decodeStep (buf.take L) L off = decodeStep buf L off := by
  unfold decodeStep
  rw [slice_take_self]
  cases hs : slice buf L off 8 with
  | none => rfl
  | some hdr =>
    dsimp only
    by_cases hc : leRead (hdr.drop 4) < 8 ∨ leRead (hdr.drop 4) % 4 ≠ 0
    · rw [if_pos hc, if_pos hc]
    · rw [if_neg hc, if_neg hc, slice_take_self]

theorem decodeRecords_take_self (buf : List Nat) (L : Nat) (n off : Nat) :
    decodeRecords (buf.take L) L off n = decodeRecords buf L off n := by
  induction n generalizing off with
  | zero => rfl
  | succ k ih =>
    unfold decodeRecords
    rw [decodeStep_take_self]
    cases hs : decodeStep buf L off with
    | error e => rfl
    | ok p => dsimp only; rw [ih p.2]

theorem decode_take_self (buf : List Nat) (L : Nat) :
    decode (buf.take L) L = decode buf L := by
  unfold decode
  rw [slice_take_self]
  cases hs : slice buf L 0 8 with
  | none => rfl
  | some hdr => dsimp only; rw [decodeRecords_take_self]

/-- Two buffers that agree on their first `max_len` bytes decode
identically: the decoder never reads a byte at or past `max_len`. -/
theorem decode_depends_only_below_maxLen (buf1 buf2 : List Nat) (L : Nat)
    (h : buf1.take L = buf2.take L) : decode buf1 L = decode buf2 L := by
  rw [← decode_take_self buf1, h, decode_take_self]

/-! ## Truncated buffers -/

theorem decodeStep_truncatedHeader (buf : List Nat) (L off : Nat) (h : L < off + 8) :
    decodeStep buf L off = .error (.truncatedHeader off) := by
  unfold decodeStep slice
  rw [if_neg (by omega)]

/-- A step whose 8-byte header fits but whose declared size overruns
`max_len` fails with `TruncatedData`. -/
theorem decodeStep_truncatedData (A B : List Nat) (r : URecord) (k : Nat)
    (h : validRecord r) (h8 : A.length + 8 ≤ k) (hk : k < A.length + rsize r) :
    decodeStep (A ++ (recordBytes r ++ B)) k A.length =
      .error (.truncatedData A.length) := by
  have hge8 := rsize_ge_8 r
  have hrecLen : (recordBytes r).length = rsize r := recordBytes_length r h
  have hdrop : (A ++ (recordBytes r ++ B)).drop A.length = recordBytes r ++ B :=
    List.drop_left A (recordBytes r ++ B)
  have hslice8 : slice (A ++ (recordBytes r ++ B)) k A.length 8 =
      some (leBytes 4 (rtype r) ++ leBytes 4 (rsize r)) := by
    unfold slice
    rw [if_pos h8, hdrop, List.take_append_of_le_length (by omega), recordBytes_take8]
  have hty : leRead ((leBytes 4 (rtype r) ++ leBytes 4 (rsize r)).take 4) = rtype r := by
    rw [List.take_left' (leBytes_length 4 (rtype r)), leRead_leBytes,
      Nat.mod_eq_of_lt (lt_of_lt_of_le (rtype_lt r h) (by norm_num))]
  have hsz : leRead ((leBytes 4 (rtype r) ++ leBytes 4 (rsize r)).drop 4) = rsize r := by
    rw [List.drop_left' (leBytes_length 4 (rtype r)), leRead_leBytes,
      Nat.mod_eq_of_lt (lt_of_lt_of_le (rsize_lt r h) (by norm_num))]
  have hcond : ¬(rsize r < 8 ∨ rsize r % 4 ≠ 0) := by
    have := rsize_mod4 r h
    omega
  have hsliceSz : slice (A ++ (recordBytes r ++ B)) k A.length (rsize r) = none := by
    unfold slice
    rw [if_neg (by omega)]
  unfold decodeStep
  rw [hslice8]
  simp only [hty, hsz, if_neg hcond, hsliceSz]

/-- Walking a buffer cut at `k` strictly inside the serialization of `rs`
yields a strict prefix of `rs` and stops with a truncation signal at the
offset of the first incomplete record. -/
theorem decodeRecords_truncated (rs : List URecord) (A : List Nat) (k : Nat)
    (h : ∀ r ∈ rs, validRecord r) (hA : A.length ≤ k)
    (hk : k < A.length + (rs.map rsize).sum) :
    ∃ j e, j < rs.length ∧ e.isTruncation = true ∧
      decodeRecords ((A ++ (rs.map recordBytes).flatten).take k) k A.length rs.length =
        (rs.take j, A.length + ((rs.take j).map rsize).sum, some e) := by
  induction rs generalizing A with
  | nil => simp at hk; omega
  | cons r rest ih =>
    have hvr : validRecord r := h r (by simp)
    have hvrest : ∀ x ∈ rest, validRecord x := fun x hx => h x (by simp [hx])
    by_cases hhdr : k < A.length + 8
    · refine ⟨0, .truncatedHeader A.length, by simp, rfl, ?_⟩
      simp only [List.length_cons, decodeRecords,
        decodeStep_truncatedHeader _ k A.length hhdr]
      simp
    · by_cases hfits : A.length + rsize r ≤ k
      · -- first record complete: step succeeds, recurse into the rest
        have hAlen : (A ++ recordBytes r).length = A.length + rsize r := by
          simp [recordBytes_length r hvr]
        have hbuf : A ++ ((r :: rest).map recordBytes).flatten =
            (A ++ recordBytes r) ++ (rest.map recordBytes).flatten := by
          simp [List.append_assoc]
        have hstep : decodeStep ((A ++ ((r :: rest).map recordBytes).flatten).take k)
            k A.length = .ok (r, A.length + rsize r) := by
          rw [decodeStep_take_self]
          simp only [List.map_cons, List.flatten_cons, List.append_assoc]
          exact decodeStep_ok A _ r k hvr hfits
        have hkrest : k < (A ++ recordBytes r).length + (rest.map rsize).sum := by
          rw [hAlen]
          simp only [List.map_cons, List.sum_cons] at hk
          omega
        obtain ⟨j, e, hj, he, hrec⟩ := ih (A ++ recordBytes r) hvrest
          (by rw [hAlen]; omega) hkrest
        rw [hAlen, ← hbuf] at hrec
        refine ⟨j + 1, e, by simp; omega, he, ?_⟩
        simp only [List.length_cons, decodeRecords]
        rw [hstep]
        simp only [hrec]
        simp [Nat.add_assoc]
      · -- header readable but record overruns the cut: TruncatedData
        have hstep : decodeStep ((A ++ ((r :: rest).map recordBytes).flatten).take k)
            k A.length = .error (.truncatedData A.length) := by
          rw [decodeStep_take_self]
          simp only [List.map_cons, List.flatten_cons, List.append_assoc]
          exact decodeStep_truncatedData A _ r k hvr (by omega) (by omega)
        refine ⟨0, .truncatedData A.length, by simp, rfl, ?_⟩
        simp only [List.length_cons, decodeRecords, hstep]
        simp

/-! ## Further helpers for the claim theorems -/

theorem structSize_boot : structSize ultra_boot_context = 8 := by decide

theorem parseEntries_length (n : Nat) (b : List Nat) :
    (parseEntries n b).length = n := by
  induction n generalizing b with
  | zero => rfl
  | succ k ih => simp [parseEntries, ih]

/-- What one successful decode step did to the cursor: it read the 8-byte
attribute header and advanced by exactly the `size` field it contains. -/
theorem decodeStep_advance (buf : List Nat) (L off : Nat) (r : URecord) (off2 : Nat)
    (h : decodeStep buf L off = .ok (r, off2)) :
    ∃ hdr, slice buf L off 8 = some hdr ∧
      off2 = off + leRead (hdr.drop 4) ∧ off < off2 := by
  unfold decodeStep at h
  cases hs : slice buf L off 8 with
  | none => rw [hs] at h; cases h
  | some hdr =>
    rw [hs] at h
    dsimp only at h
    by_cases hc : leRead (hdr.drop 4) < 8 ∨ leRead (hdr.drop 4) % 4 ≠ 0
    · rw [if_pos hc] at h; cases h
    · rw [if_neg hc] at h
      cases hs2 : slice buf L off (leRead (hdr.drop 4)) with
      | none => rw [hs2] at h; cases h
      | some recBytes =>
        rw [hs2] at h
        dsimp only at h
        cases hp : parseRecord (leRead (hdr.take 4)) (leRead (hdr.drop 4))
            (recBytes.drop 8) with
        | none => rw [hp] at h; cases h
        | some r2 =>
          rw [hp] at h
          cases h
          exact ⟨hdr, rfl, rfl, by omega⟩

/-! ## Claim theorems -/

/-- C9: the attribute type discriminant catalog assigns 0 to invalid and
1..7, in table order, to platform info, kernel location, memory map,
module info, command line, framebuffer info and APM info; every
non-opaque record's discriminant is one of exactly these seven values. -/
theorem C9_type_discriminant_catalog :
    ULTRA_ATTRIBUTE_INVALID = 0 ∧
    ULTRA_ATTRIBUTE_PLATFORM_INFO = 1 ∧
    ULTRA_ATTRIBUTE_KERNEL_INFO = 2 ∧
    ULTRA_ATTRIBUTE_MEMORY_MAP = 3 ∧
    ULTRA_ATTRIBUTE_MODULE_INFO = 4 ∧
    ULTRA_ATTRIBUTE_COMMAND_LINE = 5 ∧
    ULTRA_ATTRIBUTE_FRAMEBUFFER_INFO = 6 ∧
    ULTRA_ATTRIBUTE_APM_INFO = 7 ∧
    (∀ pt lmaj lmin name acpi hhb ptd dtb smb,
      rtype (.platformInfo pt lmaj lmin name acpi hhb ptd dtb smb) =
        ULTRA_ATTRIBUTE_PLATFORM_INFO) ∧
    (∀ pb vb sz ptype dg pg di pi path,
      rtype (.kernelInfo pb vb sz ptype dg pg di pi path) =
        ULTRA_ATTRIBUTE_KERNEL_INFO) ∧
    (∀ es, rtype (.memoryMap es) = ULTRA_ATTRIBUTE_MEMORY_MAP) ∧
    (∀ rsv ty name addr sz,
      rtype (.moduleInfo rsv ty name addr sz) = ULTRA_ATTRIBUTE_MODULE_INFO) ∧
    (∀ text, rtype (.commandLine text) = ULTRA_ATTRIBUTE_COMMAND_LINE) ∧
    (∀ w h pitch bpp fmt pa,
      rtype (.framebufferInfo w h pitch bpp fmt pa) =
        ULTRA_ATTRIBUTE_FRAMEBUFFER_INFO) ∧
    (∀ ver fl pcs pcsl pmo rcs rcsl ds dsl,
      rtype (.apmInfo ver fl pcs pcsl pmo rcs rcsl ds dsl) =
        ULTRA_ATTRIBUTE_APM_INFO) ∧
    (∀ r : URecord, isOpaque r = false → 1 ≤ rtype r ∧ rtype r ≤ 7) := by
  refine ⟨rfl, rfl, rfl, rfl, rfl, rfl, rfl, rfl,
    fun _ _ _ _ _ _ _ _ _ => rfl, fun _ _ _ _ _ _ _ _ _ => rfl, fun _ => rfl,
    fun _ _ _ _ _ => rfl, fun _ => rfl, fun _ _ _ _ _ _ => rfl,
    fun _ _ _ _ _ _ _ _ _ => rfl, ?_⟩
  intro r hr
  cases r <;> simp_all [isOpaque, rtype, ULTRA_ATTRIBUTE_PLATFORM_INFO,
    ULTRA_ATTRIBUTE_KERNEL_INFO, ULTRA_ATTRIBUTE_MEMORY_MAP,
    ULTRA_ATTRIBUTE_MODULE_INFO, ULTRA_ATTRIBUTE_COMMAND_LINE,
    ULTRA_ATTRIBUTE_FRAMEBUFFER_INFO, ULTRA_ATTRIBUTE_APM_INFO]

/-- Witness for C9 at the command-line variant. -/
theorem C9_type_discriminant_catalog_witness :
    ULTRA_ATTRIBUTE_INVALID = 0 ∧
    (1 ≤ rtype (.commandLine []) ∧ rtype (.commandLine []) ≤ 7) := by
  obtain ⟨h0, -, -, -, -, -, -, -, -, -, -, -, -, -, -, hcat⟩ :=
    C9_type_discriminant_catalog
  exact ⟨h0, hcat (.commandLine []) (by decide)⟩

/-- C10: the magic constant is exactly 0x554C5442, whose little-endian
byte image is the characters B, T, L, U in that order. -/
theorem C10_magic_value :
    ULTRA_MAGIC = 0x554C5442 ∧
    leBytes 4 ULTRA_MAGIC = [0x42, 0x54, 0x4C, 0x55] ∧
    leBytes 4 ULTRA_MAGIC =
      [Char.toNat 'B', Char.toNat 'T', Char.toNat 'L', Char.toNat 'U'] := by
  refine ⟨rfl, by decide, by decide⟩

/-- C8: the context header is 8 bytes — 8-bit protocol_major at offset 0,
8-bit protocol_minor at 1, 16-bit reserved at 2, 32-bit attribute_count at
4 — the serialized blob's records start at byte 8, and the walker's cursor
starts at that header size. -/
theorem C8_context_header_layout :
    structSize ultra_boot_context = 8 ∧
    fieldOffset ultra_boot_context 0 = 0 ∧
    fieldOffset ultra_boot_context 1 = 1 ∧
    fieldOffset ultra_boot_context 2 = 2 ∧
    fieldOffset ultra_boot_context 3 = 4 ∧
    ultra_boot_context = [u8, u8, u16, u32] ∧
    (∀ major minor rs,
      (serializeBlob major minor rs).drop (structSize ultra_boot_context) =
        (rs.map recordBytes).flatten) ∧
    (∀ buf L hdr, slice buf L 0 8 = some hdr →
      decode buf L = .ok
        ⟨leRead (hdr.take 1), leRead ((hdr.drop 1).take 1),
         leRead ((hdr.drop 4).take 4),
         (decodeRecords buf L (structSize ultra_boot_context)
           (leRead ((hdr.drop 4).take 4))).1,
         (decodeRecords buf L (structSize ultra_boot_context)
           (leRead ((hdr.drop 4).take 4))).2.1,
         (decodeRecords buf L (structSize ultra_boot_context)
           (leRead ((hdr.drop 4).take 4))).2.2⟩) := by
  refine ⟨by decide, by decide, by decide, by decide, by decide, rfl, ?_, ?_⟩
  · intro major minor rs
    rw [structSize_boot, serializeBlob]
    have : (leBytes 1 major ++ leBytes 1 minor ++ leBytes 2 0 ++
        leBytes 4 rs.length).length = 8 := by
      simp [leBytes_length]
    exact List.drop_left' this
  · intro buf L hdr h
    rw [structSize_boot]
    unfold decode
    rw [h]

/-- Witness for C8 on a concrete empty blob. -/
theorem C8_context_header_layout_witness :
    decode (serializeBlob 1 0 []) 8 = .ok
      ⟨leRead ((serializeBlob 1 0 []).take 8 |>.take 1),
       leRead (((serializeBlob 1 0 []).take 8 |>.drop 1).take 1),
       leRead (((serializeBlob 1 0 []).take 8 |>.drop 4).take 4),
       (decodeRecords (serializeBlob 1 0 []) 8 (structSize ultra_boot_context)
         (leRead (((serializeBlob 1 0 []).take 8 |>.drop 4).take 4))).1,
       (decodeRecords (serializeBlob 1 0 []) 8 (structSize ultra_boot_context)
         (leRead (((serializeBlob 1 0 []).take 8 |>.drop 4).take 4))).2.1,
       (decodeRecords (serializeBlob 1 0 []) 8 (structSize ultra_boot_context)
         (leRead (((serializeBlob 1 0 []).take 8 |>.drop 4).take 4))).2.2⟩ := by
  have h := C8_context_header_layout.2.2.2.2.2.2.2 (serializeBlob 1 0 []) 8
    ((serializeBlob 1 0 []).take 8) (by decide)
  exact h

/-- C4: a memory-map entry is three 64-bit fields at offsets 0, 8, 16
(24 bytes); the attribute header is 8 bytes; the entry-count macro is
`(size - 8) / 24`; and on every valid memory-map record it equals the
number of entries, which is exactly how many entries the walker parses. -/
theorem C4_memory_map_entry_count :
    structSize ultra_memory_map_entry = 24 ∧
    structSize ultra_attribute_header = 8 ∧
    ultra_memory_map_entry = [u64, u64, u64] ∧
    fieldOffset ultra_memory_map_entry 0 = 0 ∧
    fieldOffset ultra_memory_map_entry 1 = 8 ∧
    fieldOffset ultra_memory_map_entry 2 = 16 ∧
    (∀ sz, ULTRA_MEMORY_MAP_ENTRY_COUNT sz = (sz - 8) / 24) ∧
    (∀ n b, (parseEntries n b).length = n) ∧
    (∀ es, validRecord (.memoryMap es) →
      ULTRA_MEMORY_MAP_ENTRY_COUNT (rsize (.memoryMap es)) = es.length) := by
  refine ⟨by decide, by decide, rfl, by decide, by decide, by decide, ?_,
    parseEntries_length, ?_⟩
  · intro sz
    simp [ULTRA_MEMORY_MAP_ENTRY_COUNT, structSize_header, structSize_entry]
  · intro es hv
    simp [ULTRA_MEMORY_MAP_ENTRY_COUNT, rsize, structSize_header, structSize_entry]

/-- Witness for C4 at a single-entry memory map. -/
theorem C4_memory_map_entry_count_witness :
    validRecord (.memoryMap [⟨4096, 4096, 1⟩]) ∧
    ULTRA_MEMORY_MAP_ENTRY_COUNT (rsize (.memoryMap [⟨4096, 4096, 1⟩])) = 1 := by
  refine ⟨by decide, ?_⟩
  exact C4_memory_map_entry_count.2.2.2.2.2.2.2.2 [⟨4096, 4096, 1⟩] (by decide)

/-- C5: in every fixed-shape record struct, each 64-bit field sits at an
offset divisible by 8 from the record start: platform info's
acpi_rsdp_address (48), higher_half_base (56), dtb_address (72) and
smbios_address (80); kernel info's physical_base (8) through
partition_type (32); module info's address (80) and size (88); and the
framebuffer's physical address (24 from the attribute start). -/
theorem C5_64bit_field_alignment :
    fieldOffset ultra_platform_info_attribute 5 = 48 ∧
    fieldOffset ultra_platform_info_attribute 6 = 56 ∧
    fieldOffset ultra_platform_info_attribute 9 = 72 ∧
    fieldOffset ultra_platform_info_attribute 10 = 80 ∧
    fieldOffset ultra_kernel_info_attribute 1 = 8 ∧
    fieldOffset ultra_kernel_info_attribute 2 = 16 ∧
    fieldOffset ultra_kernel_info_attribute 3 = 24 ∧
    fieldOffset ultra_kernel_info_attribute 4 = 32 ∧
    fieldOffset ultra_module_info_attribute 4 = 80 ∧
    fieldOffset ultra_module_info_attribute 5 = 88 ∧
    fieldOffset ultra_framebuffer_attribute 1 + fieldOffset ultra_framebuffer 5 = 24 ∧
    fieldOffset ultra_platform_info_attribute 5 % 8 = 0 ∧
    fieldOffset ultra_platform_info_attribute 6 % 8 = 0 ∧
    fieldOffset ultra_platform_info_attribute 9 % 8 = 0 ∧
    fieldOffset ultra_platform_info_attribute 10 % 8 = 0 ∧
    fieldOffset ultra_kernel_info_attribute 1 % 8 = 0 ∧
    fieldOffset ultra_kernel_info_attribute 2 % 8 = 0 ∧
    fieldOffset ultra_kernel_info_attribute 3 % 8 = 0 ∧
    fieldOffset ultra_kernel_info_attribute 4 % 8 = 0 ∧
    fieldOffset ultra_module_info_attribute 4 % 8 = 0 ∧
    fieldOffset ultra_module_info_attribute 5 % 8 = 0 ∧
    (fieldOffset ultra_framebuffer_attribute 1 + fieldOffset ultra_framebuffer 5) % 8
      = 0 := by
  decide

/-- C1: begin/add/finish on any sequence of valid typed records, followed
by a decode of the serialized buffer over its full length, yields exactly
the original records — same types, same field values, same append order —
together with the protocol version and record count. -/
theorem C1_build_decode_roundtrip (major minor : Nat) (rs : List URecord) (cap : Nat)
    (h : ∀ r ∈ rs, validRecord r) (hmaj : major < 256) (hmin : minor < 256)
    (hcnt : rs.length < 2 ^ 32)
    (hcap : (serializeBlob major minor rs).length ≤ cap) :
    ∃ blob len,
      addAll (beginBuild major minor) rs = .ok ⟨major, minor, rs⟩ ∧
      finishBuild ⟨major, minor, rs⟩ cap = .ok (blob, len) ∧
      decode blob len = .ok ⟨major, minor, rs.length, rs, len, none⟩ := by
  refine ⟨serializeBlob major minor rs, (serializeBlob major minor rs).length,
    ?_, ?_, ?_⟩
  · have := addAll_ok rs (beginBuild major minor) h
    simpa [beginBuild] using this
  · simp [finishBuild, hcap]
  · have hd := decode_serializeBlob major minor rs h hmaj hmin hcnt
    have hlen := serializeBlob_length major minor rs h
    rw [hd, hlen]

/-- Witness for C1: a one-record blob round-trips through build and
decode. -/
theorem C1_build_decode_roundtrip_witness :
    (∀ r ∈ [URecord.commandLine [114]], validRecord r) ∧
    ∃ blob len,
      addAll (beginBuild 1 2) [URecord.commandLine [114]] =
        .ok ⟨1, 2, [URecord.commandLine [114]]⟩ ∧
      finishBuild ⟨1, 2, [URecord.commandLine [114]]⟩ 24 = .ok (blob, len) ∧
      decode blob len = .ok ⟨1, 2, 1, [URecord.commandLine [114]], len, none⟩ :=
  ⟨by decide,
   C1_build_decode_roundtrip 1 2 [URecord.commandLine [114]] 24 (by decide)
     (by decide) (by decide) (by decide) (by decide)⟩

/-- C3: on every successful decode step the cursor advances by exactly the
`size` field read from the current record's header, hence strictly
increases; and after all N records of a serialized blob are decoded the
final offset is the 8-byte context-header size plus the sum of the N
records' size fields. -/
theorem C3_monotonic_cursor :
    (∀ buf L off r off2, decodeStep buf L off = .ok (r, off2) →
      ∃ hdr, slice buf L off 8 = some hdr ∧
        off2 = off + leRead (hdr.drop 4) ∧ off < off2) ∧
    (∀ major minor rs, (∀ r ∈ rs, validRecord r) → major < 256 → minor < 256 →
      rs.length < 2 ^ 32 →
      decode (serializeBlob major minor rs) (serializeBlob major minor rs).length =
        .ok ⟨major, minor, rs.length, rs, 8 + (rs.map rsize).sum, none⟩) :=
  ⟨decodeStep_advance, fun major minor rs h hmaj hmin hcnt =>
    decode_serializeBlob major minor rs h hmaj hmin hcnt⟩

/-- Witness for C3 at one concrete step and one concrete blob. -/
theorem C3_monotonic_cursor_witness :
    (∃ hdr, slice (recordBytes (.commandLine [114])) 16 0 8 = some hdr ∧
      16 = 0 + leRead (hdr.drop 4) ∧ 0 < 16) ∧
    decode (serializeBlob 1 2 [URecord.commandLine [114]])
        (serializeBlob 1 2 [URecord.commandLine [114]]).length =
      .ok ⟨1, 2, 1, [URecord.commandLine [114]],
           8 + ([URecord.commandLine [114]].map rsize).sum, none⟩ :=
  ⟨C3_monotonic_cursor.1 (recordBytes (.commandLine [114])) 16 0
      (.commandLine [114]) 16 (by decide),
   C3_monotonic_cursor.2 1 2 [URecord.commandLine [114]] (by decide) (by decide)
      (by decide) (by decide)⟩

/-- C2: the decoder never reads a byte at or past `max_len` — its result
depends only on the first `max_len` bytes — and on any buffer truncated
strictly before its full length it either fails on the incomplete context
header or returns a strict prefix of the valid records together with a
truncation signal raised at the first incomplete record. -/
theorem C2_bounds_safety :
    (∀ buf1 buf2 L, buf1.take L = buf2.take L → decode buf1 L = decode buf2 L) ∧
    (∀ major minor rs k, (∀ r ∈ rs, validRecord r) → major < 256 → minor < 256 →
      rs.length < 2 ^ 32 → k < (serializeBlob major minor rs).length →
      (k < 8 ∧ decode ((serializeBlob major minor rs).take k) k =
        .error (.truncatedHeader 0)) ∨
      (∃ j e, j < rs.length ∧ DecodeError.isTruncation e = true ∧
        decode ((serializeBlob major minor rs).take k) k =
          .ok ⟨major, minor, rs.length, rs.take j,
               8 + ((rs.take j).map rsize).sum, some e⟩)) := by
  refine ⟨decode_depends_only_below_maxLen, ?_⟩
  intro major minor rs k h hmaj hmin hcnt hk
  by_cases h8 : k < 8
  · left
    refine ⟨h8, ?_⟩
    unfold decode
    have hnone : slice ((serializeBlob major minor rs).take k) k 0 8 = none := by
      unfold slice
      rw [if_neg (by omega)]
    rw [hnone]
  · right
    have hlenB := serializeBlob_length major minor rs h
    set ctx : List Nat :=
      leBytes 1 major ++ leBytes 1 minor ++ leBytes 2 0 ++ leBytes 4 rs.length
      with hctx
    have hctxLen : ctx.length = 8 := by simp [hctx, leBytes_length]
    have hblob : serializeBlob major minor rs = ctx ++ (rs.map recordBytes).flatten := by
      simp [serializeBlob, hctx, List.append_assoc]
    have hcons : ctx = major :: minor :: 0 :: 0 :: leBytes 4 rs.length := by
      rw [hctx]; exact serializeBlob_ctx major minor rs hmaj hmin
    have hslice : slice ((serializeBlob major minor rs).take k) k 0 8 = some ctx := by
      rw [slice_take_self]
      unfold slice
      rw [if_pos (by omega), List.drop_zero, hblob,
        List.take_append_of_le_length (by omega), List.take_of_length_le (by omega)]
    have hmajRead : leRead (ctx.take 1) = major := by
      rw [hcons]; simp [leRead, Nat.mod_eq_of_lt hmaj]
    have hminRead : leRead ((ctx.drop 1).take 1) = minor := by
      rw [hcons]; simp [leRead, Nat.mod_eq_of_lt hmin]
    have hcntRead : leRead ((ctx.drop 4).take 4) = rs.length := by
      rw [hcons]
      simp only [List.drop_succ_cons, List.drop_zero]
      rw [List.take_of_length_le (by simp [leBytes_length]), leRead_leBytes,
        Nat.mod_eq_of_lt (lt_of_lt_of_le hcnt (by norm_num))]
    obtain ⟨j, e, hj, he, hrec⟩ := decodeRecords_truncated rs ctx k h
      (by omega) (by omega)
    rw [hctxLen] at hrec
    rw [← hblob] at hrec
    refine ⟨j, e, hj, he, ?_⟩
    unfold decode
    rw [hslice]
    simp only [hmajRead, hminRead, hcntRead, hrec]

/-- Witness for C2: a frame instance on two buffers agreeing below
`max_len`, and a concrete truncated blob. -/
theorem C2_bounds_safety_witness :
    decode [1, 2, 0, 0, 9] 3 = decode [1, 2, 0, 0, 77] 3 ∧
    ((20 < 8 ∧ decode ((serializeBlob 1 2 [URecord.commandLine [114]]).take 20) 20 =
        .error (.truncatedHeader 0)) ∨
      (∃ j e, j < [URecord.commandLine [114]].length ∧
        DecodeError.isTruncation e = true ∧
        decode ((serializeBlob 1 2 [URecord.commandLine [114]]).take 20) 20 =
          .ok ⟨1, 2, [URecord.commandLine [114]].length,
               [URecord.commandLine [114]].take j,
               8 + (([URecord.commandLine [114]].take j).map rsize).sum, some e⟩)) :=
  ⟨C2_bounds_safety.1 [1, 2, 0, 0, 9] [1, 2, 0, 0, 77] 3 (by decide),
   C2_bounds_safety.2 1 2 [URecord.commandLine [114]] 20 (by decide) (by decide)
     (by decide) (by decide) (by decide)⟩

/-- C6: the builder rejects any record whose fixed string, terminator
included, exceeds its capacity (32-byte loader name, 64-byte module name,
256-byte kernel path) with `FieldTooLong` and appends nothing; in
particular a 256-byte kernel path fails while a 255-byte path is appended
unchanged (no truncation). -/
theorem C6_fixed_string_overflow :
    (∀ (b : Builder) pt lmaj lmin (name : List Nat) acpi hhb ptd dtb smb,
      32 < name.length + 1 →
      addRecord b (.platformInfo pt lmaj lmin name acpi hhb ptd dtb smb) =
        .error .fieldTooLong) ∧
    (∀ (b : Builder) rsv ty (name : List Nat) addr sz, 64 < name.length + 1 →
      addRecord b (.moduleInfo rsv ty name addr sz) = .error .fieldTooLong) ∧
    (∀ (b : Builder) pb vb sz ptype dg pg di pi (path : List Nat),
      ULTRA_PATH_MAX < path.length + 1 →
      addRecord b (.kernelInfo pb vb sz ptype dg pg di pi path) =
        .error .fieldTooLong) ∧
    (∀ (b : Builder) pb vb sz ptype dg pg di pi (path : List Nat), path.length = 256 →
      addRecord b (.kernelInfo pb vb sz ptype dg pg di pi path) =
        .error .fieldTooLong) ∧
    (∀ (b : Builder) pb vb sz ptype dg pg di pi (path : List Nat), path.length = 255 →
      addRecord b (.kernelInfo pb vb sz ptype dg pg di pi path) =
        .ok ⟨b.protocol_major, b.protocol_minor,
             b.records ++ [.kernelInfo pb vb sz ptype dg pg di pi path]⟩) := by
  refine ⟨?_, ?_, ?_, ?_, ?_⟩
  · intro b pt lmaj lmin name acpi hhb ptd dtb smb hlong
    have hno : ¬(name.length + 1 ≤ 32) := by omega
    simp [addRecord, fitsFixedStrings, hno]
  · intro b rsv ty name addr sz hlong
    have hno : ¬(name.length + 1 ≤ 64) := by omega
    simp [addRecord, fitsFixedStrings, hno]
  · intro b pb vb sz ptype dg pg di pi path hlong
    simp only [ULTRA_PATH_MAX] at hlong
    have hno : ¬(path.length + 1 ≤ ULTRA_PATH_MAX) := by
      simp [ULTRA_PATH_MAX]; omega
    simp [addRecord, fitsFixedStrings, hno]
  · intro b pb vb sz ptype dg pg di pi path hlen
    have hno : ¬(path.length + 1 ≤ ULTRA_PATH_MAX) := by
      simp [ULTRA_PATH_MAX]; omega
    simp [addRecord, fitsFixedStrings, hno]
  · intro b pb vb sz ptype dg pg di pi path hlen
    have hyes : path.length + 1 ≤ ULTRA_PATH_MAX := by
      simp [ULTRA_PATH_MAX]; omega
    simp [addRecord, fitsFixedStrings, hyes]

/-- Witness for C6: a 256-byte path is rejected, a 255-byte path accepted,
on a concrete builder. -/
theorem C6_fixed_string_overflow_witness :
    addRecord (beginBuild 1 0)
        (.kernelInfo 0 0 0 0 ⟨0, 0, 0, List.replicate 8 0⟩
          ⟨0, 0, 0, List.replicate 8 0⟩ 0 0 (List.replicate 256 47)) =
      .error .fieldTooLong ∧
    addRecord (beginBuild 1 0)
        (.kernelInfo 0 0 0 0 ⟨0, 0, 0, List.replicate 8 0⟩
          ⟨0, 0, 0, List.replicate 8 0⟩ 0 0 (List.replicate 255 47)) =
      .ok ⟨(beginBuild 1 0).protocol_major, (beginBuild 1 0).protocol_minor,
           (beginBuild 1 0).records ++
             [.kernelInfo 0 0 0 0 ⟨0, 0, 0, List.replicate 8 0⟩
               ⟨0, 0, 0, List.replicate 8 0⟩ 0 0 (List.replicate 255 47)]⟩ :=
  ⟨C6_fixed_string_overflow.2.2.2.1 (beginBuild 1 0) 0 0 0 0
      ⟨0, 0, 0, List.replicate 8 0⟩ ⟨0, 0, 0, List.replicate 8 0⟩ 0 0
      (List.replicate 256 47) (by simp),
   C6_fixed_string_overflow.2.2.2.2 (beginBuild 1 0) 0 0 0 0
      ⟨0, 0, 0, List.replicate 8 0⟩ ⟨0, 0, 0, List.replicate 8 0⟩ 0 0
      (List.replicate 255 47) (by simp)⟩

/-- C7: the region-kind, pixel-format and partition-scheme enumerations
each place their unknown/invalid sentinel at 0, and the walker preserves
any value outside the known set of each enumeration, decoding the record
successfully with the value intact. -/
theorem C7_enum_sentinels_forward_compat :
    ULTRA_MEMORY_TYPE_INVALID = 0 ∧
    ULTRA_FB_FORMAT_INVALID = 0 ∧
    ULTRA_PARTITION_TYPE_INVALID = 0 ∧
    (∀ e : MemMapEntry, validEntry e → e.type ∉ knownMemoryTypes →
      parseRecord ULTRA_ATTRIBUTE_MEMORY_MAP (rsize (.memoryMap [e]))
        (payloadBytes (.memoryMap [e])) = some (.memoryMap [e])) ∧
    (∀ w h pitch bpp fmt pa, validRecord (.framebufferInfo w h pitch bpp fmt pa) →
      fmt ∉ knownFbFormats →
      parseRecord ULTRA_ATTRIBUTE_FRAMEBUFFER_INFO
        (rsize (.framebufferInfo w h pitch bpp fmt pa))
        (payloadBytes (.framebufferInfo w h pitch bpp fmt pa)) =
        some (.framebufferInfo w h pitch bpp fmt pa)) ∧
    (∀ pb vb sz ptype dg pg di pi path,
      validRecord (.kernelInfo pb vb sz ptype dg pg di pi path) →
      ptype ∉ knownPartitionTypes →
      parseRecord ULTRA_ATTRIBUTE_KERNEL_INFO
        (rsize (.kernelInfo pb vb sz ptype dg pg di pi path))
        (payloadBytes (.kernelInfo pb vb sz ptype dg pg di pi path)) =
        some (.kernelInfo pb vb sz ptype dg pg di pi path)) := by
  refine ⟨rfl, rfl, rfl, ?_, ?_, ?_⟩
  · intro e hv hout
    have hvr : validRecord (.memoryMap [e]) := by
      refine ⟨?_, by norm_num⟩
      intro x hx
      simp at hx
      rw [hx]
      exact hv
    exact parseRecord_payloadBytes (.memoryMap [e]) hvr
  · intro w h pitch bpp fmt pa hv hout
    exact parseRecord_payloadBytes (.framebufferInfo w h pitch bpp fmt pa) hv
  · intro pb vb sz ptype dg pg di pi path hv hout
    exact parseRecord_payloadBytes (.kernelInfo pb vb sz ptype dg pg di pi path) hv

/-- Witness for C7 at out-of-catalog enum values. -/
theorem C7_enum_sentinels_forward_compat_witness :
    parseRecord ULTRA_ATTRIBUTE_MEMORY_MAP
        (rsize (.memoryMap [⟨0, 0, 3735879681⟩]))
        (payloadBytes (.memoryMap [⟨0, 0, 3735879681⟩])) =
      some (.memoryMap [⟨0, 0, 3735879681⟩]) ∧
    parseRecord ULTRA_ATTRIBUTE_FRAMEBUFFER_INFO
        (rsize (.framebufferInfo 640 480 2560 32 777 4096))
        (payloadBytes (.framebufferInfo 640 480 2560 32 777 4096)) =
      some (.framebufferInfo 640 480 2560 32 777 4096) ∧
    parseRecord ULTRA_ATTRIBUTE_KERNEL_INFO
        (rsize (.kernelInfo 0 0 0 99 ⟨0, 0, 0, List.replicate 8 0⟩
          ⟨0, 0, 0, List.replicate 8 0⟩ 0 0 [47]))
        (payloadBytes (.kernelInfo 0 0 0 99 ⟨0, 0, 0, List.replicate 8 0⟩
          ⟨0, 0, 0, List.replicate 8 0⟩ 0 0 [47])) =
      some (.kernelInfo 0 0 0 99 ⟨0, 0, 0, List.replicate 8 0⟩
        ⟨0, 0, 0, List.replicate 8 0⟩ 0 0 [47]) :=
  ⟨C7_enum_sentinels_forward_compat.2.2.2.1 ⟨0, 0, 3735879681⟩ (by decide) (by decide),
   C7_enum_sentinels_forward_compat.2.2.2.2.1 640 480 2560 32 777 4096 (by decide)
     (by decide),
   C7_enum_sentinels_forward_compat.2.2.2.2.2 0 0 0 99 ⟨0, 0, 0, List.replicate 8 0⟩
     ⟨0, 0, 0, List.replicate 8 0⟩ 0 0 [47] (by decide) (by decide)⟩

end Ultra
